import Mathlib

set_option maxRecDepth 100000

/-!
Verification development for `md5sum_compare` (`src/md5sum_compare/main.py`).

The Python program is shallowly embedded as follows:
* Python strings are lists of characters (`Str`); file contents are lists of
  byte values (`Bytes`, each element below 256).
* `hashlib.md5` is implemented in full (padding, 64 rounds, little-endian
  word handling, lowercase-hex rendering); the incremental `update` calls of
  `md5sum_async` are modelled by accumulating the 4096-byte chunks read from
  the file and hashing the accumulated buffer.
* The filesystem seen by one generation run is the list of regular files the
  enumerator yields (relative path plus either the readable content, or
  `none` for a file whose open/read raises).  A nonexistent or unreadable
  root is a separate constructor, because `os.walk` treats it specially.
* The completion order of the checksum tasks (`asyncio.as_completed`) is a
  parameter `order`, constrained in theorems to be a permutation of the
  enumerated file list.
* Python `dict`s are association lists in insertion order; assignment
  replaces the value at the first occurrence of the key (`dictInsert`),
  which preserves Python's last-write-wins lookup semantics.
-/

/-- Python strings, modelled as lists of characters. -/
abbrev Str : Type := List Char

/-- File contents, modelled as lists of byte values (each below 256). -/
abbrev Bytes : Type := List Nat

/-! ## Checksum engine: `md5sum_async` (main.py lines 14-22)

`hashlib.md5` is the reference MD5 algorithm (RFC 1321): pad the message,
process 64-byte blocks through 64 rounds each, and render the four state
words as lowercase hexadecimal, little-endian byte order. -/

/-- Addition modulo 2^32, the word arithmetic of MD5. -/
def add32 (a b : Nat) : Nat := (a + b) % 4294967296

/-- Left rotation of a 32-bit word by `s` places. -/
def rotl32 (x s : Nat) : Nat := ((x <<< s) ||| (x >>> (32 - s))) % 4294967296

/-- The 64 sine-derived round constants of MD5 (RFC 1321 table T). -/
def md5K : List Nat :=
  [0xd76aa478, 0xe8c7b756, 0x242070db, 0xc1bdceee,
   0xf57c0faf, 0x4787c62a, 0xa8304613, 0xfd469501,
   0x698098d8, 0x8b44f7af, 0xffff5bb1, 0x895cd7be,
   0x6b901122, 0xfd987193, 0xa679438e, 0x49b40821,
   0xf61e2562, 0xc040b340, 0x265e5a51, 0xe9b6c7aa,
   0xd62f105d, 0x02441453, 0xd8a1e681, 0xe7d3fbc8,
   0x21e1cde6, 0xc33707d6, 0xf4d50d87, 0x455a14ed,
   0xa9e3e905, 0xfcefa3f8, 0x676f02d9, 0x8d2a4c8a,
   0xfffa3942, 0x8771f681, 0x6d9d6122, 0xfde5380c,
   0xa4beea44, 0x4bdecfa9, 0xf6bb4b60, 0xbebfbc70,
   0x289b7ec6, 0xeaa127fa, 0xd4ef3085, 0x04881d05,
   0xd9d4d039, 0xe6db99e5, 0x1fa27cf8, 0xc4ac5665,
   0xf4292244, 0x432aff97, 0xab9423a7, 0xfc93a039,
   0x655b59c3, 0x8f0ccc92, 0xffeff47d, 0x85845dd1,
   0x6fa87e4f, 0xfe2ce6e0, 0xa3014314, 0x4e0811a1,
   0xf7537e82, 0xbd3af235, 0x2ad7d2bb, 0xeb86d391]

/-- The per-round left-rotation amounts of MD5. -/
def md5S : List Nat :=
  [7, 12, 17, 22, 7, 12, 17, 22, 7, 12, 17, 22, 7, 12, 17, 22,
   5, 9, 14, 20, 5, 9, 14, 20, 5, 9, 14, 20, 5, 9, 14, 20,
   4, 11, 16, 23, 4, 11, 16, 23, 4, 11, 16, 23, 4, 11, 16, 23,
   6, 10, 15, 21, 6, 10, 15, 21, 6, 10, 15, 21, 6, 10, 15, 21]

/-- Round function F of MD5 (complement taken within 32 bits via xor). -/
def md5F (b c d : Nat) : Nat := (b &&& c) ||| ((b ^^^ 4294967295) &&& d)

/-- Round function G of MD5. -/
def md5G (b c d : Nat) : Nat := (d &&& b) ||| ((d ^^^ 4294967295) &&& c)

/-- Round function H of MD5. -/
def md5H (b c d : Nat) : Nat := b ^^^ c ^^^ d

/-- Round function I of MD5. -/
def md5I (b c d : Nat) : Nat := c ^^^ (b ||| (d ^^^ 4294967295))

/-- The running MD5 state: four 32-bit words. -/
structure MD5State where
  a : Nat
  b : Nat
  c : Nat
  d : Nat
deriving DecidableEq

/-- One of the 64 rounds of an MD5 block, acting on state `st` with the
sixteen message words `M` at round index `i`. -/
def md5Round (M : List Nat) (st : MD5State) (i : Nat) : MD5State :=
  let fg : Nat × Nat :=
    if i < 16 then (md5F st.b st.c st.d, i)
    else if i < 32 then (md5G st.b st.c st.d, (5 * i + 1) % 16)
    else if i < 48 then (md5H st.b st.c st.d, (3 * i + 5) % 16)
    else (md5I st.b st.c st.d, (7 * i) % 16)
  let tmp := (fg.1 + st.a + md5K.getD i 0 + M.getD fg.2 0) % 4294967296
  { a := st.d, b := add32 st.b (rotl32 tmp (md5S.getD i 0)), c := st.b, d := st.c }

/-- A 32-bit word from four bytes, little-endian. -/
def leWord (b0 b1 b2 b3 : Nat) : Nat := b0 + 256 * b1 + 65536 * b2 + 16777216 * b3

/-- Decompose a byte sequence into little-endian 32-bit words. -/
def toWords : Bytes → List Nat
  | b0 :: b1 :: b2 :: b3 :: rest => leWord b0 b1 b2 b3 :: toWords rest
  | _ => []

/-- Process one 64-byte block: run the 64 rounds and add the result into the
incoming state, word-wise modulo 2^32. -/
def md5Block (st : MD5State) (block : Bytes) : MD5State :=
  let M := toWords block
  let e := (List.range 64).foldl (md5Round M) st
  { a := add32 st.a e.a, b := add32 st.b e.b, c := add32 st.c e.c, d := add32 st.d e.d }

/-- The four little-endian bytes of a 32-bit word. -/
def leBytes4 (n : Nat) : Bytes := [n % 256, n / 256 % 256, n / 65536 % 256, n / 16777216 % 256]

/-- The eight little-endian bytes of a 64-bit length field. -/
def leBytes8 (n : Nat) : Bytes := leBytes4 (n % 4294967296) ++ leBytes4 (n / 4294967296)

/-- MD5 padding: append the 0x80 byte, zero bytes up to 56 mod 64, then the
bit length of the message as a 64-bit little-endian field. -/
def md5Pad (msg : Bytes) : Bytes :=
  msg ++ 128 :: (List.replicate ((119 - msg.length % 64) % 64) 0 ++ leBytes8 (8 * msg.length))

/-- Split a list into chunks of `n` elements, fuel-driven so the definition
is structural (and hence evaluates inside the kernel).  When the fuel runs
out the remainder is emitted as one final chunk, so concatenating the chunks
always restores the input. -/
def chunksAux (n : Nat) : Nat → Bytes → List Bytes
  | _, [] => []
  | 0, l => [l]
  | fuel + 1, b :: t => ((b :: t).take n) :: chunksAux n fuel ((b :: t).drop n)

/-- Split a list into chunks of `n` elements (the last one possibly short). -/
def chunksOf (n : Nat) (l : Bytes) : List Bytes := chunksAux n l.length l

/-- The 16 digest bytes of MD5: initialize the state with the RFC 1321
constants, fold the 64-byte blocks of the padded message, and serialize the
final state little-endian. -/
def md5DigestBytes (msg : Bytes) : Bytes :=
  let st := (chunksOf 64 (md5Pad msg)).foldl md5Block
    { a := 0x67452301, b := 0xefcdab89, c := 0x98badcfe, d := 0x10325476 }
  leBytes4 st.a ++ leBytes4 st.b ++ leBytes4 st.c ++ leBytes4 st.d

/-- Lowercase hexadecimal character for a nibble value. -/
def hexChar (n : Nat) : Char := if n < 10 then Char.ofNat (48 + n) else Char.ofNat (87 + n)

/-- Two lowercase hexadecimal characters for a byte value. -/
def byteHex (b : Nat) : Str := [hexChar (b / 16 % 16), hexChar (b % 16)]

/-- Python's `hashlib.md5(msg).hexdigest()`: the 16 digest bytes rendered as
32 lowercase hexadecimal characters. -/
def hexdigest (msg : Bytes) : Str := ((md5DigestBytes msg).map byteHex).flatten

/-- `md5sum_async` (main.py lines 14-22): reads the file in 4096-byte chunks
and feeds each chunk to the running hash.  The incremental hash object is
modelled as the accumulated buffer of bytes fed so far; `hexdigest` of the
final buffer is the returned digest. -/
def md5sum_async (content : Bytes) : Str :=
  hexdigest ((chunksOf 4096 content).foldl (fun acc chunk => acc ++ chunk) [])

/-! ## Python string primitives used by the manifest store -/

/-- Python's whitespace test for `str.strip()`: the ASCII whitespace and
separator control characters together with the Unicode space characters
(the exact set stripped by CPython's `str.strip` with no argument). -/
def pyIsSpace (c : Char) : Bool :=
  let n := c.toNat
  (9 ≤ n && n ≤ 13) || (28 ≤ n && n ≤ 32) || n == 133 || n == 160 || n == 5760 ||
  (8192 ≤ n && n ≤ 8202) || n == 8232 || n == 8233 || n == 8239 || n == 8287 || n == 12288

/-- Python `s.strip()`: remove whitespace from both ends. -/
def pyStrip (s : Str) : Str := ((s.dropWhile pyIsSpace).reverse.dropWhile pyIsSpace).reverse

/-- Python `s.split(' ', 1)` restricted to the case the loader needs: `none`
when `s` contains no space (so that tuple unpacking of the one-element list
raises `ValueError`), otherwise the parts before and after the first space. -/
def splitOnce : Str → Option (Str × Str)
  | [] => none
  | c :: cs =>
    if c = ' ' then some ([], cs)
    else
      match splitOnce cs with
      | some kv => some (c :: kv.1, kv.2)
      | none => none

/-- Universal-newline translation performed by text-mode reading: `\r\n` and
a lone `\r` both become `\n`. -/
def univNewlines : Str → Str
  | [] => []
  | [c] => if c = '\r' then ['\n'] else [c]
  | c :: c2 :: rest =>
    if c = '\r' then
      if c2 = '\n' then '\n' :: univNewlines rest
      else '\n' :: univNewlines (c2 :: rest)
    else c :: univNewlines (c2 :: rest)

/-- Accumulator loop for `pyLines`: `acc` is the current line so far. -/
def pyLinesAux : Str → Str → List Str
  | [], acc => if acc = [] then [] else [acc]
  | c :: rest, acc => if c = '\n' then acc :: pyLinesAux rest [] else pyLinesAux rest (acc ++ [c])

/-- Iterating over the lines of a text file (`for line in f`), with the
terminating newline of each line already removed (every consumer strips the
line immediately, so the terminator is irrelevant); a trailing newline at
end of file produces no extra empty line. -/
def pyLines (s : Str) : List Str := pyLinesAux s []

/-! ## Python dicts as insertion-ordered association lists -/

/-- Python `d[k] = v`: replace the value at the first occurrence of `k`,
else append the new binding.  Keys stay unique, and a later assignment to an
existing key wins on lookup. -/
def dictInsert : List (Str × Str) → Str → Str → List (Str × Str)
  | [], k, v => [(k, v)]
  | (k', v') :: rest, k, v =>
    if k' = k then (k, v) :: rest else (k', v') :: dictInsert rest k v

/-- Python `d[k]` / `k in d`: the value at the first occurrence of `k`. -/
def dictGet : List (Str × Str) → Str → Option Str
  | [], _ => none
  | (k', v) :: rest, k => if k' = k then some v else dictGet rest k

/-- Python `d.keys()`, in insertion order. -/
def dictKeys (m : List (Str × Str)) : List Str := m.map Prod.fst

/-- The dict built by assigning the pairs of `entries` left to right into an
empty dict (last occurrence of a duplicate key wins). -/
def toDict (entries : List (Str × Str)) : List (Str × Str) :=
  entries.foldl (fun m e => dictInsert m e.1 e.2) []

/-! ## Manifest store: `load_manifest` (main.py lines 50-56) -/

/-- The error raised by `line.strip().split(' ', 1)` failing to unpack into
two variables: the Python `ValueError` on a malformed manifest line, called
`ParseError` by the specification.  Carries the offending line. -/
structure ParseError where
  line : Str
deriving DecidableEq

deriving instance DecidableEq for Except

/-- The loop of `load_manifest` over the remaining lines, with the dict
built so far: strip the line, split at the first space, assign
`manifest[relative_path] = checksum`; a line with no space aborts the whole
load with a `ParseError`. -/
def load_manifest_lines : List Str → List (Str × Str) → Except ParseError (List (Str × Str))
  | [], m => Except.ok m
  | l :: ls, m =>
    match splitOnce (pyStrip l) with
    | none => Except.error ⟨l⟩
    | some kv => load_manifest_lines ls (dictInsert m kv.1 kv.2)

/-- `load_manifest` (main.py lines 50-56) applied to the text content of the
manifest file: text-mode reading translates newlines, then each line is
stripped, split at its first space and assigned into the dict. -/
def load_manifest (content : Str) : Except ParseError (List (Str × Str)) :=
  load_manifest_lines (pyLines (univNewlines content)) []

/-! ## Manifest comparator: `compare_manifests` (main.py lines 58-66)

Python's key sets are modelled extensionally: each result set is the list of
keys satisfying the defining condition, and set equality in the claims is
membership equivalence. -/

/-- `compare_manifests` (main.py lines 58-66): the triple
(`missing_files`, `extra_files`, `mismatched_files`). -/
def compare_manifests (source_manifest destination_manifest : List (Str × Str)) :
    List Str × List Str × List Str :=
  let source_files := dictKeys source_manifest
  let destination_files := dictKeys destination_manifest
  (source_files.filter (fun k => decide (k ∉ destination_files)),
   destination_files.filter (fun k => decide (k ∉ source_files)),
   (source_files.filter (fun k => decide (k ∈ destination_files))).filter
     (fun k => decide (dictGet source_manifest k ≠ dictGet destination_manifest k)))

/-! ## Concurrent manifest generator: `generate_manifest` (main.py lines 32-48) -/

/-- What the enumerator (`os.walk`) sees as the root directory: either a
root whose `scandir` raises (nonexistent or unreadable — `os.walk` is called
with its default `onerror=None`, which silently swallows the error and
yields nothing), or a present directory with its regular files, each given
by the path relative to the root (`os.path.relpath(os.path.join(root, file),
directory)`) together with its readable byte content, or `none` for a file
whose open/read raises. -/
inductive RootDir where
  | missing
  | present (files : List (Str × Option Bytes))

/-- The file list produced by the `os.walk` loop (main.py lines 37-40): a
missing or unreadable root yields no entries because `os.walk`'s default
`onerror=None` ignores the `scandir` error. -/
def walkFiles : RootDir → List (Str × Option Bytes)
  | .missing => []
  | .present files => files

/-- `process_file` (main.py lines 24-30): compute the checksum and return
`(file_path, checksum)`; any exception is caught, logged and converted into
`(file_path, None)` — it never propagates. -/
def process_file (f : Str × Option Bytes) : Str × Option Str :=
  match f.2 with
  | some content => (f.1, some (md5sum_async content))
  | none => (f.1, none)

/-- Python's rendering of an optional string inside an f-string: the string
itself, or the four characters `None` when the value is `None`. -/
def pyStr : Option Str → Str
  | some s => s
  | none => "None".toList

/-- The manifest line written for one completed task (main.py line 46):
`f"{relative_path} {checksum}\n"`. -/
def manifestLine (r : Str × Option Str) : Str := r.1 ++ ' ' :: (pyStr r.2 ++ ['\n'])

/-- One step of a generation run, for the phase-ordering claim: the walk
enumerates a file, or a checksum task executes. -/
inductive GenEvent where
  | enumerate (path : Str)
  | checksum (path : Str)
deriving DecidableEq

/-- Does the event belong to the enumeration phase? -/
def isEnum : GenEvent → Bool
  | .enumerate _ => true
  | .checksum _ => false

/-- The observable outcome of one `generate_manifest` run: the event trace,
the manifest lines written to the output file in completion order, and the
Python return value.  The function is annotated `-> None` and returns `None`,
modelled as an `Option` of the count pair the specification expects. -/
structure GenOutcome where
  trace : List GenEvent
  lines : List Str
  ret : Option (Nat × Nat)

/-- `generate_manifest` (main.py lines 32-48).  Phase one walks the tree and
submits one task per file; `loop.run_in_executor(executor, process_file,
file_path)` only builds the coroutine object in the worker thread (calling
an `async def` runs none of its body), so no checksum work executes during
the walk.  Phase two iterates `asyncio.as_completed(tasks)` and awaiting
each result runs the checksum; `order` is the completion order, a
permutation of the enumerated files.  Each completed task's line is written
immediately; the function returns `None`. -/
def generate_manifest (root : RootDir) (order : List (Str × Option Bytes)) : GenOutcome :=
  { trace := (walkFiles root).map (fun f => GenEvent.enumerate f.1) ++
      order.map (fun f => GenEvent.checksum f.1),
    lines := order.map (fun f => manifestLine (process_file f)),
    ret := none }

/-- The manifest text produced by writing one line per entry in the line
format of `generate_manifest` with every checksum present. -/
def writeManifest (entries : List (Str × Str)) : Str :=
  (entries.map (fun e => manifestLine (e.1, some e.2))).flatten

/-- The lowercase hexadecimal alphabet. -/
def hexAlphabet : Str := "0123456789abcdef".toList

/-- One parsing step of the loader, as a total fold function: strip the
line, split at its first space, assign into the dict (identity on a
malformed line; the loader never reaches that branch in the `ok` case). -/
def parseStep (m : List (Str × Str)) (l : Str) : List (Str × Str) :=
  match splitOnce (pyStrip l) with
  | some kv => dictInsert m kv.1 kv.2
  | none => m

/-- A two-file directory with one unreadable file, for concrete runs. -/
def fsC1 : RootDir :=
  RootDir.present [("good.txt".toList, some []), ("bad.txt".toList, none)]

/-- A one-file directory, for concrete runs. -/
def fsC6 : RootDir := RootDir.present [("a.txt".toList, some [])]

/-- The directory of the specification's concrete scenario: `test1.txt`
containing `"Hello, World!"` and `test2.txt` containing
`"Another file content"`. -/
def fs7 : RootDir :=
  RootDir.present
    [("test1.txt".toList, some ("Hello, World!".toList.map Char.toNat)),
     ("test2.txt".toList, some ("Another file content".toList.map Char.toNat))]

/-! ## Helper lemmas -/

theorem foldl_append_eq_flatten (L : List Bytes) (acc : Bytes) :
    L.foldl (fun a c => a ++ c) acc = acc ++ L.flatten := by
  induction L generalizing acc with
  | nil => simp
  | cons b t ih => simp [ih]

theorem chunksAux_flatten (n : Nat) : ∀ (fuel : Nat) (l : Bytes),
    (chunksAux n fuel l).flatten = l := by
  intro fuel
  induction fuel with
  | zero => intro l; cases l <;> simp [chunksAux]
  | succ f ih => intro l; cases l with
    | nil => simp [chunksAux]
    | cons b t => simp [chunksAux, ih]

theorem md5sum_async_eq (content : Bytes) : md5sum_async content = hexdigest content := by
  unfold md5sum_async chunksOf
  rw [foldl_append_eq_flatten, chunksAux_flatten]
  rfl

theorem md5DigestBytes_length (msg : Bytes) : (md5DigestBytes msg).length = 16 := by
  simp [md5DigestBytes, leBytes4]

theorem flatten_map_byteHex_length (bs : Bytes) :
    ((bs.map byteHex).flatten).length = 2 * bs.length := by
  induction bs with
  | nil => simp
  | cons b t ih => simp [byteHex, ih]; ring

theorem hexdigest_length (msg : Bytes) : (hexdigest msg).length = 32 := by
  unfold hexdigest
  rw [flatten_map_byteHex_length, md5DigestBytes_length]

theorem hexChar_mem (n : Nat) (h : n < 16) : hexChar n ∈ hexAlphabet := by
  interval_cases n <;> decide

theorem hexdigest_mem (msg : Bytes) (c : Char) (hc : c ∈ hexdigest msg) : c ∈ hexAlphabet := by
  unfold hexdigest at hc
  rw [List.mem_flatten] at hc
  obtain ⟨l, hl, hcl⟩ := hc
  rw [List.mem_map] at hl
  obtain ⟨b, _, rfl⟩ := hl
  simp only [byteHex, List.mem_cons, List.mem_singleton] at hcl
  rcases hcl with h1 | h1 | h1
  · exact h1 ▸ hexChar_mem _ (Nat.mod_lt _ (by omega))
  · exact h1 ▸ hexChar_mem _ (Nat.mod_lt _ (by omega))
  · cases h1

theorem dropWhile_eq_self_of_head (l : Str)
    (h : ∀ c, l.head? = some c → pyIsSpace c = false) :
    l.dropWhile pyIsSpace = l := by
  cases l with
  | nil => rfl
  | cons c t => simp [List.dropWhile_cons, h c rfl]

theorem pyStrip_eq_self (s : Str)
    (h1 : ∀ c, s.head? = some c → pyIsSpace c = false)
    (h2 : ∀ c, s.getLast? = some c → pyIsSpace c = false) :
    pyStrip s = s := by
  unfold pyStrip
  rw [dropWhile_eq_self_of_head s h1]
  rw [dropWhile_eq_self_of_head s.reverse (fun c hc => h2 c (by rwa [List.head?_reverse] at hc))]
  exact List.reverse_reverse s

theorem splitOnce_append (p d : Str) (hp : ' ' ∉ p) :
    splitOnce (p ++ ' ' :: d) = some (p, d) := by
  induction p with
  | nil => simp [splitOnce]
  | cons c t ih =>
    have hc : ¬ c = ' ' := fun e => hp (e ▸ List.mem_cons_self c t)
    have ht : ' ' ∉ t := fun m => hp (List.mem_cons_of_mem c m)
    simp [splitOnce, hc, ih ht]

theorem splitOnce_eq_none_iff (s : Str) : splitOnce s = none ↔ ' ' ∉ s := by
  induction s with
  | nil => simp [splitOnce]
  | cons c t ih =>
    by_cases hc : c = ' '
    · subst hc; simp [splitOnce]
    · simp only [splitOnce, if_neg hc]
      cases hs : splitOnce t with
      | none =>
        simp only [hs]
        constructor
        · intro _ hmem
          rcases List.mem_cons.mp hmem with h1 | h1
          · exact hc h1.symm
          · exact (ih.mp hs) h1
        · intro _; trivial
      | some kv =>
        simp only [hs]
        constructor
        · intro h; cases h
        · intro h
          have hnt : ' ' ∉ t := fun m => h (List.mem_cons_of_mem c m)
          exact absurd (ih.mpr hnt) (by simp [hs])

theorem univNewlines_eq_self : ∀ (s : Str), '\r' ∉ s → univNewlines s = s := by
  intro s
  induction s with
  | nil => intro _; rfl
  | cons c t ih =>
    intro h
    have hc : ¬ c = '\r' := fun e => h (e ▸ List.mem_cons_self c t)
    have ht : '\r' ∉ t := fun m => h (List.mem_cons_of_mem c m)
    cases t with
    | nil => simp [univNewlines, hc]
    | cons c2 t2 => simp [univNewlines, hc, ih ht]

theorem pyLinesAux_append (body : Str) (h : '\n' ∉ body) :
    ∀ (rest acc : Str),
      pyLinesAux (body ++ '\n' :: rest) acc = (acc ++ body) :: pyLinesAux rest [] := by
  induction body with
  | nil => intro rest acc; simp [pyLinesAux]
  | cons c t ih =>
    intro rest acc
    have hc : ¬ c = '\n' := fun e => h (e ▸ List.mem_cons_self c t)
    have ht : '\n' ∉ t := fun m => h (List.mem_cons_of_mem c m)
    simp only [List.cons_append, pyLinesAux, if_neg hc, List.append_eq]
    rw [ih ht rest (acc ++ [c])]
    simp

theorem pyLines_flatten (bodies : List Str) (h : ∀ b ∈ bodies, '\n' ∉ b) :
    pyLines ((bodies.map (fun b => b ++ ['\n'])).flatten) = bodies := by
  induction bodies with
  | nil => rfl
  | cons b t ih =>
    have hb : '\n' ∉ b := h b (List.mem_cons_self b t)
    have ht : ∀ x ∈ t, '\n' ∉ x := fun x hx => h x (List.mem_cons_of_mem b hx)
    simp only [List.map_cons, List.flatten_cons, List.append_assoc, List.singleton_append]
    unfold pyLines
    rw [pyLinesAux_append b hb _ []]
    rw [List.nil_append]
    exact congrArg (b :: ·) (ih ht)

theorem load_manifest_lines_ok : ∀ (ls : List Str) (m : List (Str × Str)),
    (∀ l ∈ ls, splitOnce (pyStrip l) ≠ none) →
    load_manifest_lines ls m = Except.ok (ls.foldl parseStep m) := by
  intro ls
  induction ls with
  | nil => intro m _; rfl
  | cons l t ih =>
    intro m h
    have hl := h l (List.mem_cons_self l t)
    cases hs : splitOnce (pyStrip l) with
    | none => exact absurd hs hl
    | some kv =>
      simp only [load_manifest_lines, hs, List.foldl_cons, parseStep]
      exact ih _ (fun x hx => h x (List.mem_cons_of_mem l hx))

theorem load_manifest_lines_error_iff : ∀ (ls : List Str) (m : List (Str × Str)),
    (∃ e, load_manifest_lines ls m = Except.error e) ↔ ∃ l ∈ ls, splitOnce (pyStrip l) = none := by
  intro ls
  induction ls with
  | nil => intro m; simp [load_manifest_lines]
  | cons l t ih =>
    intro m
    cases hs : splitOnce (pyStrip l) with
    | none => simp [load_manifest_lines, hs]
    | some kv =>
      simp only [load_manifest_lines, hs, List.mem_cons]
      rw [ih]
      constructor
      · rintro ⟨x, hx, he⟩; exact ⟨x, Or.inr hx, he⟩
      · rintro ⟨x, hx | hx, he⟩
        · subst hx; rw [he] at hs; cases hs
        · exact ⟨x, hx, he⟩

/-- The line written for a failed checksum: the f-string renders `None`. -/
theorem manifestLine_none (p : Str) :
    manifestLine (p, (none : Option Str)) = p ++ ' ' :: "None\n".toList := by
  have h : ("None".toList ++ ['\n'] : Str) = "None\n".toList := by decide
  simp [manifestLine, pyStr, h]

/-- Assigning a key always wins on subsequent lookup of that key. -/
theorem dictGet_dictInsert (m : List (Str × Str)) (k v : Str) :
    dictGet (dictInsert m k v) k = some v := by
  induction m with
  | nil => simp [dictInsert, dictGet]
  | cons kv t ih =>
    by_cases hk : kv.1 = k
    · simp [dictInsert, dictGet, hk]
    · simp [dictInsert, dictGet, hk, ih]

/-! ## Claim theorems -/

/-- C2: `compare_manifests` returns exactly the triple (missing, extra,
mismatched) with missing = keys(source) − keys(destination), extra =
keys(destination) − keys(source), and mismatched = the keys in the
intersection whose digest values differ. -/
theorem compare_manifests_spec (src dst : List (Str × Str)) (k : Str) :
    (k ∈ (compare_manifests src dst).1 ↔ k ∈ dictKeys src ∧ k ∉ dictKeys dst) ∧
    (k ∈ (compare_manifests src dst).2.1 ↔ k ∈ dictKeys dst ∧ k ∉ dictKeys src) ∧
    (k ∈ (compare_manifests src dst).2.2 ↔
      (k ∈ dictKeys src ∧ k ∈ dictKeys dst) ∧ dictGet src k ≠ dictGet dst k) := by
  refine ⟨by simp [compare_manifests, List.mem_filter, and_assoc],
    by simp [compare_manifests, List.mem_filter, and_assoc], ?_⟩
  simp [compare_manifests, List.mem_filter, and_assoc]
  tauto

/-- C5: evaluation of a generation run whose root directory does not exist
(or is not readable).  `os.walk` is invoked with its default
`onerror=None`, so the `scandir` failure is silently swallowed: the run
completes normally, writing a zero-line manifest, and the process exits
zero — no `DirectoryError` is ever raised. -/
theorem generate_missing_root_completes :
    walkFiles RootDir.missing = [] ∧
    (generate_manifest RootDir.missing []).lines = [] ∧
    (generate_manifest RootDir.missing []).trace = [] ∧
    (generate_manifest RootDir.missing []).ret = none :=
  ⟨rfl, rfl, rfl, rfl⟩

/-- C6 counterexample: `generate_manifest` is annotated `-> None` and
returns `None`; on a concrete successful run over one file it returns no
`(fileCount, errorCount)` pair. -/
theorem generate_manifest_ret_cex :
    ¬ ∃ counts : Nat × Nat, (generate_manifest fsC6 (walkFiles fsC6)).ret = some counts := by
  rintro ⟨c, hc⟩
  simp [generate_manifest] at hc

/-- C6 amended: a successful generation run returns `None` (no counts);
the number of manifest lines written equals the number of files
enumerated. -/
theorem generate_manifest_ret (root : RootDir) (order : List (Str × Option Bytes))
    (h : order.Perm (walkFiles root)) :
    (generate_manifest root order).ret = none ∧
    (generate_manifest root order).lines.length = (walkFiles root).length := by
  refine ⟨rfl, ?_⟩
  have := (h.map (fun f => manifestLine (process_file f))).length_eq
  simpa [generate_manifest] using this

/-- C6 witness: the amended theorem instantiated at a one-file directory
with the completion order equal to the enumeration order. -/
theorem generate_manifest_ret_witness :
    (walkFiles fsC6).Perm (walkFiles fsC6) ∧
    (generate_manifest fsC6 (walkFiles fsC6)).ret = none :=
  ⟨List.Perm.refl _, (generate_manifest_ret fsC6 (walkFiles fsC6) (List.Perm.refl _)).1⟩

/-- C8: phase ordering of a generation run.  The trace has exactly
`(walkFiles root).length + order.length` events; its first
`(walkFiles root).length` events are all enumeration events and the
remaining events are all checksum executions, so enumeration completes
before any checksum work begins.  (In the source, the worker threads only
build coroutine objects during the walk; the checksum bodies run when the
write loop awaits them, after the walk has finished.) -/
theorem generate_manifest_phase_order (root : RootDir) (order : List (Str × Option Bytes)) :
    (generate_manifest root order).trace.length = (walkFiles root).length + order.length ∧
    ((generate_manifest root order).trace.take (walkFiles root).length).all isEnum = true ∧
    ((generate_manifest root order).trace.drop (walkFiles root).length).all
      (fun e => !(isEnum e)) = true := by
  refine ⟨by simp [generate_manifest], ?_, ?_⟩
  · have h : (generate_manifest root order).trace.take (walkFiles root).length =
        (walkFiles root).map (fun f => GenEvent.enumerate f.1) := by
      show (((walkFiles root).map (fun f => GenEvent.enumerate f.1)) ++
        order.map (fun f => GenEvent.checksum f.1)).take (walkFiles root).length = _
      rw [show (walkFiles root).length =
        ((walkFiles root).map (fun f => GenEvent.enumerate f.1)).length by simp]
      exact List.take_left _ _
    rw [h, List.all_eq_true]
    intro e he
    obtain ⟨f, _, rfl⟩ := List.mem_map.mp he
    rfl
  · have h : (generate_manifest root order).trace.drop (walkFiles root).length =
        order.map (fun f => GenEvent.checksum f.1) := by
      show (((walkFiles root).map (fun f => GenEvent.enumerate f.1)) ++
        order.map (fun f => GenEvent.checksum f.1)).drop (walkFiles root).length = _
      rw [show (walkFiles root).length =
        ((walkFiles root).map (fun f => GenEvent.enumerate f.1)).length by simp]
      exact List.drop_left _ _
    rw [h, List.all_eq_true]
    intro e he
    obtain ⟨f, _, rfl⟩ := List.mem_map.mp he
    rfl

/-- C9: every digest produced by a successful checksum computation is a
32-character string over the lowercase hexadecimal alphabet, for every
content; a zero-byte file yields the digest of the empty byte string. -/
theorem md5sum_wellformed (content : Bytes) :
    (md5sum_async content).length = 32 ∧
    (∀ c ∈ md5sum_async content, c ∈ hexAlphabet) ∧
    md5sum_async [] = hexdigest [] ∧ (hexdigest []).length = 32 := by
  refine ⟨?_, ?_, md5sum_async_eq [], hexdigest_length []⟩
  · rw [md5sum_async_eq]; exact hexdigest_length content
  · intro c hc
    rw [md5sum_async_eq] at hc
    exact hexdigest_mem content c hc

/-- C9 witness: the well-formedness facts instantiated at the empty file. -/
theorem md5sum_wellformed_witness :
    (md5sum_async []).length = 32 ∧ md5sum_async [] = hexdigest [] :=
  ⟨(md5sum_wellformed []).1, (md5sum_wellformed []).2.2.1⟩

/-- C1: failure isolation of generate.  For a directory of N enumerated
files, the run writes exactly N manifest lines (the written lines are a
permutation of one line per enumerated file); every file whose checksum
raised gets the `None` failure-sentinel line, every readable file gets its
digest line, and the run always completes — a per-file failure never
suppresses another file's entry. -/
theorem generate_manifest_failure_isolation (root : RootDir)
    (order : List (Str × Option Bytes)) (h : order.Perm (walkFiles root)) :
    (generate_manifest root order).lines.length = (walkFiles root).length ∧
    (generate_manifest root order).lines.Perm
      ((walkFiles root).map (fun f => manifestLine (process_file f))) ∧
    (∀ p : Str, (p, (none : Option Bytes)) ∈ walkFiles root →
      (p ++ ' ' :: "None\n".toList) ∈ (generate_manifest root order).lines) ∧
    (∀ (p : Str) (content : Bytes), (p, some content) ∈ walkFiles root →
      (p ++ ' ' :: (md5sum_async content ++ ['\n'])) ∈ (generate_manifest root order).lines) := by
  have hperm : (generate_manifest root order).lines.Perm
      ((walkFiles root).map (fun f => manifestLine (process_file f))) :=
    h.map (fun f => manifestLine (process_file f))
  refine ⟨by simpa using hperm.length_eq, hperm, ?_, ?_⟩
  · intro p hp
    refine hperm.mem_iff.mpr (List.mem_map.mpr ⟨(p, none), hp, ?_⟩)
    exact (manifestLine_none p).symm ▸ rfl
  · intro p content hp
    exact hperm.mem_iff.mpr (List.mem_map.mpr ⟨(p, some content), hp, rfl⟩)

/-- C1 witness: a two-file directory with one unreadable file, completion
order equal to enumeration order: two lines are written and the unreadable
file's line carries the `None` sentinel. -/
theorem generate_manifest_failure_isolation_witness :
    (walkFiles fsC1).Perm (walkFiles fsC1) ∧
    (generate_manifest fsC1 (walkFiles fsC1)).lines.length = 2 ∧
    ("bad.txt".toList ++ ' ' :: "None\n".toList) ∈
      (generate_manifest fsC1 (walkFiles fsC1)).lines := by
  have h := generate_manifest_failure_isolation fsC1 (walkFiles fsC1) (List.Perm.refl _)
  exact ⟨List.Perm.refl _, by rw [h.1]; rfl, h.2.2.1 "bad.txt".toList (by decide)⟩

/-- C7: the concrete two-file scenario.  For any completion order the run
writes exactly the two expected manifest lines, with the MD5 digests of
`"Hello, World!"` and `"Another file content"` and root-relative paths;
in general the digest is a function of the byte content only — reading in
4096-byte chunks hashes exactly the whole content. -/
theorem generate_concrete_scenario (order : List (Str × Option Bytes))
    (h : order.Perm (walkFiles fs7)) :
    (generate_manifest fs7 order).lines.Perm
      ["test1.txt 65a8e27d8879283831b664bd8b7f0ad4\n".toList,
       "test2.txt f41f69f6f6eb0d631ea0d9a45e2ed04d\n".toList] ∧
    (generate_manifest fs7 order).lines.length = 2 ∧
    (∀ content : Bytes, md5sum_async content = hexdigest content) := by
  have hmap : (walkFiles fs7).map (fun f => manifestLine (process_file f)) =
      ["test1.txt 65a8e27d8879283831b664bd8b7f0ad4\n".toList,
       "test2.txt f41f69f6f6eb0d631ea0d9a45e2ed04d\n".toList] := by decide
  have hperm := h.map (fun f => manifestLine (process_file f))
  rw [hmap] at hperm
  exact ⟨hperm, by simpa [generate_manifest] using hperm.length_eq,
    fun content => md5sum_async_eq content⟩

/-- C7 witness: the scenario run with completion order equal to enumeration
order. -/
theorem generate_concrete_scenario_witness :
    (walkFiles fs7).Perm (walkFiles fs7) ∧
    (generate_manifest fs7 (walkFiles fs7)).lines.Perm
      ["test1.txt 65a8e27d8879283831b664bd8b7f0ad4\n".toList,
       "test2.txt f41f69f6f6eb0d631ea0d9a45e2ed04d\n".toList] :=
  ⟨List.Perm.refl _, (generate_concrete_scenario (walkFiles fs7) (List.Perm.refl _)).1⟩

/-- C10: failure-sentinel concreteness.  A failed checksum yields the line
`"relativePath None"`; loading a manifest consisting of that line maps the
path to the four-character string `None`; and a path mapped to `None` in
both manifests is not reported as mismatched by a comparison. -/
theorem failure_sentinel_concrete (p : Str) (src dst : List (Str × Str))
    (hp : p ≠ []) (hws : ∀ c ∈ p, pyIsSpace c = false) :
    manifestLine (process_file (p, (none : Option Bytes))) = p ++ ' ' :: "None\n".toList ∧
    load_manifest (manifestLine (process_file (p, (none : Option Bytes)))) =
      Except.ok [(p, "None".toList)] ∧
    (dictGet src p = some "None".toList → dictGet dst p = some "None".toList →
      p ∉ (compare_manifests src dst).2.2) := by
  have hline : manifestLine (process_file (p, (none : Option Bytes))) =
      p ++ ' ' :: "None\n".toList := manifestLine_none p
  refine ⟨hline, ?_, ?_⟩
  · rw [hline]
    have hbody : p ++ ' ' :: "None\n".toList = (p ++ ' ' :: "None".toList) ++ ['\n'] := by
      simp
    rw [hbody]
    have hnoCR : '\r' ∉ (p ++ ' ' :: "None".toList) ++ ['\n'] := by
      intro hm
      rcases List.mem_append.mp hm with hm | hm
      · rcases List.mem_append.mp hm with hm | hm
        · have := hws '\r' hm; simp [pyIsSpace] at this
        · revert hm; decide
      · revert hm; decide
    unfold load_manifest
    rw [univNewlines_eq_self _ hnoCR]
    have hnoLF : '\n' ∉ p ++ ' ' :: "None".toList := by
      intro hm
      rcases List.mem_append.mp hm with hm | hm
      · have := hws '\n' hm; simp [pyIsSpace] at this
      · revert hm; decide
    have hlines : pyLines ((p ++ ' ' :: "None".toList) ++ ['\n']) = [p ++ ' ' :: "None".toList] := by
      have := pyLines_flatten [p ++ ' ' :: "None".toList] (by simpa using hnoLF)
      simpa using this
    rw [hlines]
    have hstrip : pyStrip (p ++ ' ' :: "None".toList) = p ++ ' ' :: "None".toList := by
      obtain ⟨c0, t, rfl⟩ := List.exists_cons_of_ne_nil hp
      apply pyStrip_eq_self
      · intro c hc
        simp only [List.cons_append, List.head?_cons] at hc
        injection hc with h
        subst h
        exact hws c0 (List.mem_cons_self c0 t)
      · intro c hc
        rw [List.getLast?_append,
          show (' ' :: "None".toList).getLast? = some 'e' from by decide] at hc
        rw [show (some 'e' : Option Char).or ((c0 :: t).getLast?) = some 'e' from rfl] at hc
        injection hc with h
        subst h
        decide
    have hsplit : splitOnce (p ++ ' ' :: "None".toList) = some (p, "None".toList) := by
      apply splitOnce_append
      intro hm
      have := hws ' ' hm
      simp [pyIsSpace] at this
    simp only [load_manifest_lines, hstrip, hsplit, dictInsert]
  · intro h1 h2 hmem
    have := (compare_manifests_spec src dst p).2.2.mp hmem
    rw [h1, h2] at this
    exact this.2 rfl

/-- C10 witness: the sentinel facts for the concrete path `f.txt` and two
manifests both mapping it to `None`. -/
theorem failure_sentinel_concrete_witness :
    ("f.txt".toList ≠ ([] : Str)) ∧
    load_manifest (manifestLine (process_file ("f.txt".toList, (none : Option Bytes)))) =
      Except.ok [("f.txt".toList, "None".toList)] ∧
    "f.txt".toList ∉
      (compare_manifests [("f.txt".toList, "None".toList)]
        [("f.txt".toList, "None".toList)]).2.2 := by
  have h := failure_sentinel_concrete "f.txt".toList
    [("f.txt".toList, "None".toList)] [("f.txt".toList, "None".toList)]
    (by decide) (by decide)
  exact ⟨by decide, h.2.1, h.2.2 (by decide) (by decide)⟩

/-- The last character of a manifest line body is the last character of the
digest field. -/
theorem getLast?_body (p d : Str) (hd : d ≠ []) : (p ++ ' ' :: d).getLast? = d.getLast? := by
  rw [List.getLast?_append, show (' ' :: d) = [' '] ++ d from rfl, List.getLast?_append]
  cases hgl : d.getLast? with
  | none => exact absurd (List.getLast?_eq_none_iff.mp hgl) hd
  | some le => rfl

/-- A line body whose path starts with a non-whitespace character and whose
digest ends with a non-whitespace character survives `strip` unchanged. -/
theorem pyStrip_body (p d : Str) (hp : p ≠ []) (hd : d ≠ [])
    (hph : ∀ c, p.head? = some c → pyIsSpace c = false)
    (hdl : ∀ c, d.getLast? = some c → pyIsSpace c = false) :
    pyStrip (p ++ ' ' :: d) = p ++ ' ' :: d := by
  apply pyStrip_eq_self
  · intro c hc
    obtain ⟨c0, t, rfl⟩ := List.exists_cons_of_ne_nil hp
    simp only [List.cons_append, List.head?_cons] at hc
    injection hc with h
    subst h
    exact hph c0 rfl
  · intro c hc
    rw [getLast?_body p d hd] at hc
    exact hdl c hc

/-- Folding the loader's parse step over well-formed line bodies is folding
the dict assignment over the entries. -/
theorem foldl_parseStep_map (entries : List (Str × Str))
    (h : ∀ e ∈ entries, splitOnce (pyStrip (e.1 ++ ' ' :: e.2)) = some (e.1, e.2)) :
    ∀ m, (entries.map (fun e => e.1 ++ ' ' :: e.2)).foldl parseStep m =
      entries.foldl (fun m e => dictInsert m e.1 e.2) m := by
  induction entries with
  | nil => intro m; rfl
  | cons e t ih =>
    intro m
    simp only [List.map_cons, List.foldl_cons]
    rw [show parseStep m (e.1 ++ ' ' :: e.2) = dictInsert m e.1 e.2 from by
      simp [parseStep, h e (List.mem_cons_self e t)]]
    exact ih (fun x hx => h x (List.mem_cons_of_mem e hx)) _

/-- C3 counterexample: the single entry `("a b", "d")` satisfies the
claim's precondition — its path has no embedded newline and no leading
space — yet writing and re-loading yields the mapping `[("a", "b d")]`,
not the input mapping `[("a b", "d")]`: the loader splits at the first
space, which falls inside the path. -/
theorem manifest_roundtrip_cex :
    ('\n' ∉ ['a', ' ', 'b']) ∧ (['a', ' ', 'b'].head? ≠ some ' ') ∧
    writeManifest [(['a', ' ', 'b'], ['d'])] = "a b d\n".toList ∧
    load_manifest (writeManifest [(['a', ' ', 'b'], ['d'])]) =
      Except.ok [(['a'], ['b', ' ', 'd'])] ∧
    load_manifest (writeManifest [(['a', ' ', 'b'], ['d'])]) ≠
      Except.ok (toDict [(['a', ' ', 'b'], ['d'])]) :=
  ⟨by decide, by decide, by decide, by decide, by decide⟩

/-- C3 amended: write-then-load reconstructs the input mapping for every
finite list of entries in which each path is nonempty and contains no
whitespace character, and each digest is nonempty, contains no newline or
carriage return, and does not end in a whitespace character (the loader
strips each line and splits at its first space, so paths may not contain
spaces and line ends must survive the strip).  The reconstructed dict and
the input mapping are both built by last-occurrence-wins assignment. -/
theorem manifest_roundtrip (entries : List (Str × Str))
    (hpath : ∀ e ∈ entries, e.1 ≠ [] ∧ ∀ c ∈ e.1, pyIsSpace c = false)
    (hdig : ∀ e ∈ entries, e.2 ≠ [] ∧ (∀ c ∈ e.2, c ≠ '\n' ∧ c ≠ '\r') ∧
      (∀ c, e.2.getLast? = some c → pyIsSpace c = false)) :
    load_manifest (writeManifest entries) = Except.ok (toDict entries) := by
  have hw : writeManifest entries =
      ((entries.map (fun e => e.1 ++ ' ' :: e.2)).map (fun b => b ++ ['\n'])).flatten := by
    unfold writeManifest
    rw [List.map_map]
    rw [show (fun e : Str × Str => manifestLine (e.1, some e.2)) =
        ((fun b => b ++ ['\n']) ∘ fun e : Str × Str => e.1 ++ ' ' :: e.2) from by
      funext e
      simp [manifestLine, pyStr]]
  have hsplit : ∀ e ∈ entries, splitOnce (pyStrip (e.1 ++ ' ' :: e.2)) = some (e.1, e.2) := by
    intro e he
    rw [pyStrip_body e.1 e.2 (hpath e he).1 (hdig e he).1
      (fun c hc => (hpath e he).2 c (List.mem_of_mem_head? hc)) (hdig e he).2.2]
    apply splitOnce_append
    intro hm
    have := (hpath e he).2 ' ' hm
    simp [pyIsSpace] at this
  have hnoCR : '\r' ∉ ((entries.map (fun e => e.1 ++ ' ' :: e.2)).map (fun b => b ++ ['\n'])).flatten := by
    intro hm
    rw [List.mem_flatten] at hm
    obtain ⟨l, hl, hcl⟩ := hm
    rw [List.mem_map] at hl
    obtain ⟨b, hb, rfl⟩ := hl
    rw [List.mem_map] at hb
    obtain ⟨e, he, rfl⟩ := hb
    rcases List.mem_append.mp hcl with h | h
    · rcases List.mem_append.mp h with h | h
      · exact absurd ((hpath e he).2 '\r' h) (by decide)
      · rcases List.mem_cons.mp h with h | h
        · exact absurd h (by decide)
        · exact ((hdig e he).2.1 '\r' h).2 rfl
    · exact absurd (List.mem_singleton.mp h) (by decide)
  have hnoLF : ∀ b ∈ entries.map (fun e => e.1 ++ ' ' :: e.2), '\n' ∉ b := by
    intro b hb hm
    rw [List.mem_map] at hb
    obtain ⟨e, he, rfl⟩ := hb
    rcases List.mem_append.mp hm with h | h
    · exact absurd ((hpath e he).2 '\n' h) (by decide)
    · rcases List.mem_cons.mp h with h | h
      · exact absurd h (by decide)
      · exact ((hdig e he).2.1 '\n' h).1 rfl
  unfold load_manifest
  rw [hw, univNewlines_eq_self _ hnoCR, pyLines_flatten _ hnoLF]
  rw [load_manifest_lines_ok _ [] (by
    intro l hl
    rw [List.mem_map] at hl
    obtain ⟨e, he, rfl⟩ := hl
    rw [hsplit e he]
    exact fun h => Option.noConfusion h)]
  rw [foldl_parseStep_map entries hsplit []]
  rfl

/-- C3 witness: a concrete well-formed entry round-trips. -/
theorem manifest_roundtrip_witness :
    writeManifest [("a.txt".toList, "d41d".toList)] = "a.txt d41d\n".toList ∧
    load_manifest (writeManifest [("a.txt".toList, "d41d".toList)]) =
      Except.ok (toDict [("a.txt".toList, "d41d".toList)]) :=
  ⟨by decide, manifest_roundtrip [("a.txt".toList, "d41d".toList)] (by decide) (by decide)⟩

/-- C4 counterexample: the one-line file `"a \n"` has a space in its only
line, so the claim (malformed exactly when a line contains no space, and
otherwise split at the first space) predicts a successful load yielding
`[("a", "")]`; the code strips the line to `"a"` first, finds no space,
and aborts with a parse error. -/
theorem load_contract_cex :
    (∀ l ∈ pyLines (univNewlines "a \n".toList), ' ' ∈ l) ∧
    load_manifest ("a \n".toList) = Except.error ⟨"a ".toList⟩ :=
  ⟨by decide, by decide⟩

/-- C4 amended: loading fails with a `ParseError` exactly when some line,
after stripping leading and trailing whitespace, contains no space;
otherwise it returns the mapping obtained by splitting each stripped line
at its first space, assigned in file order so that the last occurrence of
a duplicate key wins (`dictGet` of a fresh assignment always returns the
newly assigned value). -/
theorem load_contract (content : Str) :
    ((∃ e, load_manifest content = Except.error e) ↔
      ∃ l ∈ pyLines (univNewlines content), ' ' ∉ pyStrip l) ∧
    ((∀ l ∈ pyLines (univNewlines content), ' ' ∈ pyStrip l) →
      load_manifest content =
        Except.ok ((pyLines (univNewlines content)).foldl parseStep [])) ∧
    (∀ (m : List (Str × Str)) (k v : Str), dictGet (dictInsert m k v) k = some v) := by
  refine ⟨?_, ?_, dictGet_dictInsert⟩
  · unfold load_manifest
    rw [load_manifest_lines_error_iff]
    constructor
    · rintro ⟨l, hl, h⟩
      exact ⟨l, hl, (splitOnce_eq_none_iff _).mp h⟩
    · rintro ⟨l, hl, h⟩
      exact ⟨l, hl, (splitOnce_eq_none_iff _).mpr h⟩
  · intro h
    unfold load_manifest
    apply load_manifest_lines_ok
    intro l hl hnone
    exact (splitOnce_eq_none_iff _).mp hnone (h l hl)

/-- C4 witness: a manifest with a duplicate key loads successfully and the
last occurrence wins. -/
theorem load_contract_witness :
    load_manifest ("x 1\nx 2\n".toList) = Except.ok [("x".toList, "2".toList)] := by
  rw [(load_contract ("x 1\nx 2\n".toList)).2.1 (by decide)]
  decide

